import Mathlib

/-!
Shallow embedding of `src/jobserve_scraper.py` (class `JobServeSpider`) and of the
stdlib routines it calls (`str` methods, `re.search(r'(\d+)')`, `datetime.strptime`,
`urllib.parse.urljoin`), together with theorems settling the specification claims.
Strings are modelled as Lean `String`/`List Char`; Python truthiness of strings,
ints and `None` is made explicit at every use site.
-/

namespace Jobserve

/-- Python `str.lower` (ASCII range, which is all the scraper compares). -/
def lowerL (l : List Char) : List Char := l.map Char.toLower

/-- Python `str.strip`: drop whitespace from both ends. -/
def trimL (l : List Char) : List Char :=
  ((l.dropWhile Char.isWhitespace).reverse.dropWhile Char.isWhitespace).reverse

def isPrefixB : List Char → List Char → Bool
  | [], _ => true
  | _ :: _, [] => false
  | a :: as, b :: bs => a == b && isPrefixB as bs

/-- Python's substring operator `needle in hay`. -/
def listContainsSub (needle : List Char) : List Char → Bool
  | [] => isPrefixB needle []
  | c :: t => isPrefixB needle (c :: t) || listContainsSub needle t

def substrB (hay needle : String) : Bool := listContainsSub needle.toList hay.toList

/-- Substring occurrence stated as a proposition (used on the specification side). -/
def substrP (needle hay : List Char) : Prop := ∃ p q, hay = p ++ needle ++ q

def lowerS (s : String) : String := String.mk (lowerL s.toList)

/-- Python `str.split()` with no argument: split on whitespace runs, dropping empties. -/
def splitWsAux (acc : List Char) : List Char → List (List Char)
  | [] => if acc.isEmpty then [] else [acc.reverse]
  | c :: rest =>
    if c.isWhitespace then
      if acc.isEmpty then splitWsAux [] rest else acc.reverse :: splitWsAux [] rest
    else splitWsAux (c :: acc) rest

def splitWs (l : List Char) : List (List Char) := splitWsAux [] l

def digitVal (c : Char) : Nat := c.toNat - 48

def natOfDigits (ds : List Char) : Nat := ds.foldl (fun a c => 10 * a + digitVal c) 0

/-- Python `re.search(r'(\d+)', s)` followed by `int(...)`: the first maximal digit
run of the string, if any. -/
def firstInt : List Char → Option Nat
  | [] => none
  | c :: rest =>
    if c.isDigit then some (natOfDigits (c :: rest.takeWhile Char.isDigit))
    else firstInt rest

/-- An absolute calendar date produced by a successful `datetime.strptime`. -/
structure CalDate where
  year : Nat
  month : Nat
  day : Nat
deriving DecidableEq, Repr

/-- Value of the Python `datetime` objects `parse_date` returns. The clock is kept
abstract: `nowMinus n` is `datetime.now() - timedelta(days=n)` (so `nowMinus 0` is
`datetime.now()`), and `abs d` is an absolute date built by `strptime`. -/
inductive PyDateTime where
  | nowMinus (n : Nat)
  | abs (d : CalDate)
deriving DecidableEq, Repr

def isLeapYear (y : Nat) : Bool := y % 4 == 0 && (y % 100 != 0 || y % 400 == 0)

def daysInMonth (y m : Nat) : Nat :=
  if m = 2 then (if isLeapYear y then 29 else 28)
  else if m = 4 ∨ m = 6 ∨ m = 9 ∨ m = 11 then 30
  else 31

/-- `strptime` directive `%d`, CPython regex `(3[01]|[12]\d|0[1-9]|[1-9])`
(alternatives tried in this order). -/
def matchDay : List Char → Option (Nat × List Char)
  | [] => none
  | c1 :: rest =>
    if c1 = '3' then
      match rest with
      | c2 :: rest2 =>
        if c2 = '0' ∨ c2 = '1' then some (30 + digitVal c2, rest2) else some (3, rest)
      | [] => some (3, [])
    else if c1 = '1' ∨ c1 = '2' then
      match rest with
      | c2 :: rest2 =>
        if c2.isDigit then some (10 * digitVal c1 + digitVal c2, rest2)
        else some (digitVal c1, rest)
      | [] => some (digitVal c1, [])
    else if c1 = '0' then
      match rest with
      | c2 :: rest2 => if c2.isDigit ∧ c2 ≠ '0' then some (digitVal c2, rest2) else none
      | [] => none
    else if c1.isDigit then some (digitVal c1, rest)
    else none

/-- `strptime` directive `%m`, CPython regex `(1[0-2]|0[1-9]|[1-9])`. -/
def matchMonth : List Char → Option (Nat × List Char)
  | [] => none
  | c1 :: rest =>
    if c1 = '1' then
      match rest with
      | c2 :: rest2 =>
        if c2 = '0' ∨ c2 = '1' ∨ c2 = '2' then some (10 + digitVal c2, rest2)
        else some (1, rest)
      | [] => some (1, [])
    else if c1 = '0' then
      match rest with
      | c2 :: rest2 => if c2.isDigit ∧ c2 ≠ '0' then some (digitVal c2, rest2) else none
      | [] => none
    else if c1.isDigit then some (digitVal c1, rest)
    else none

/-- `strptime` directive `%Y`, CPython regex `(\d\d\d\d)`. -/
def matchYear : List Char → Option (Nat × List Char)
  | a :: b :: c :: d :: rest =>
    if a.isDigit && b.isDigit && c.isDigit && d.isDigit then
      some (1000 * digitVal a + 100 * digitVal b + 10 * digitVal c + digitVal d, rest)
    else none
  | _ => none

/-- A literal character of the format string. -/
def matchLit (ch : Char) : List Char → Option (List Char)
  | [] => none
  | c :: rest => if c = ch then some rest else none

/-- Whitespace in a `strptime` format string matches `\s+`. -/
def matchWs : List Char → Option (List Char)
  | [] => none
  | c :: rest =>
    if c.isWhitespace then some (rest.dropWhile Char.isWhitespace) else none

/-- English month abbreviations for `%b` (the input is already lower-cased). -/
def monthAbbrevs : List (List Char × Nat) :=
  [("jan".toList, 1), ("feb".toList, 2), ("mar".toList, 3), ("apr".toList, 4),
   ("may".toList, 5), ("jun".toList, 6), ("jul".toList, 7), ("aug".toList, 8),
   ("sep".toList, 9), ("oct".toList, 10), ("nov".toList, 11), ("dec".toList, 12)]

/-- English month names for `%B`. -/
def monthFulls : List (List Char × Nat) :=
  [("january".toList, 1), ("february".toList, 2), ("march".toList, 3),
   ("april".toList, 4), ("may".toList, 5), ("june".toList, 6), ("july".toList, 7),
   ("august".toList, 8), ("september".toList, 9), ("october".toList, 10),
   ("november".toList, 11), ("december".toList, 12)]

def matchNames (tbl : List (List Char × Nat)) (cs : List Char) : Option (Nat × List Char) :=
  match tbl with
  | [] => none
  | (nm, v) :: rest =>
    if isPrefixB nm cs then some (v, cs.drop nm.length) else matchNames rest cs

/-- `datetime.strptime(s, '%d/%m/%Y')`: full match required, then the `datetime`
constructor validates the day against the month length. -/
def strptimeSlash (cs : List Char) : Option CalDate := do
  let (d, r1) ← matchDay cs
  let r2 ← matchLit '/' r1
  let (m, r3) ← matchMonth r2
  let r4 ← matchLit '/' r3
  let (y, r5) ← matchYear r4
  if r5 = [] ∧ 1 ≤ y ∧ d ≤ daysInMonth y m then pure ⟨y, m, d⟩ else none

/-- `datetime.strptime(s, '%d-%m-%Y')`. -/
def strptimeDash (cs : List Char) : Option CalDate := do
  let (d, r1) ← matchDay cs
  let r2 ← matchLit '-' r1
  let (m, r3) ← matchMonth r2
  let r4 ← matchLit '-' r3
  let (y, r5) ← matchYear r4
  if r5 = [] ∧ 1 ≤ y ∧ d ≤ daysInMonth y m then pure ⟨y, m, d⟩ else none

/-- `datetime.strptime(s, '%Y-%m-%d')`. -/
def strptimeYMD (cs : List Char) : Option CalDate := do
  let (y, r1) ← matchYear cs
  let r2 ← matchLit '-' r1
  let (m, r3) ← matchMonth r2
  let r4 ← matchLit '-' r3
  let (d, r5) ← matchDay r4
  if r5 = [] ∧ 1 ≤ y ∧ d ≤ daysInMonth y m then pure ⟨y, m, d⟩ else none

/-- `datetime.strptime(s, '%d %b %Y')`. -/
def strptimeDMonY (cs : List Char) : Option CalDate := do
  let (d, r1) ← matchDay cs
  let r2 ← matchWs r1
  let (m, r3) ← matchNames monthAbbrevs r2
  let r4 ← matchWs r3
  let (y, r5) ← matchYear r4
  if r5 = [] ∧ 1 ≤ y ∧ d ≤ daysInMonth y m then pure ⟨y, m, d⟩ else none

/-- `datetime.strptime(s, '%d %B %Y')`. -/
def strptimeDMonthY (cs : List Char) : Option CalDate := do
  let (d, r1) ← matchDay cs
  let r2 ← matchWs r1
  let (m, r3) ← matchNames monthFulls r2
  let r4 ← matchWs r3
  let (y, r5) ← matchYear r4
  if r5 = [] ∧ 1 ≤ y ∧ d ≤ daysInMonth y m then pure ⟨y, m, d⟩ else none

/-- The `date_formats` loop of `parse_date`: the five patterns tried in order,
first success wins. -/
def dateFormatsParse (cs : List Char) : Option CalDate :=
  strptimeSlash cs <|> strptimeDash cs <|> strptimeYMD cs <|>
    strptimeDMonY cs <|> strptimeDMonthY cs

/-- The rule chain of `parse_date` after `date_text.strip().lower()`: the three
relative checks in order, then the `date_formats` loop, then the
`datetime.now()` fallback. When the days-ago branch finds no embedded integer
the code falls through to the format loop. -/
def parse_date_body (cs : List Char) : PyDateTime :=
  if listContainsSub ("today".toList) cs then PyDateTime.nowMinus 0
  else if listContainsSub ("yesterday".toList) cs then PyDateTime.nowMinus 1
  else if listContainsSub ("days ago".toList) cs || listContainsSub ("day ago".toList) cs then
    match firstInt cs with
    | some n => PyDateTime.nowMinus n
    | none =>
      match dateFormatsParse cs with
      | some d => PyDateTime.abs d
      | none => PyDateTime.nowMinus 0
  else
    match dateFormatsParse cs with
    | some d => PyDateTime.abs d
    | none => PyDateTime.nowMinus 0

/-- `JobServeSpider.parse_date` (src/jobserve_scraper.py:354-391). -/
def parse_date (s : String) : PyDateTime :=
  if s == "" then PyDateTime.nowMinus 0
  else parse_date_body (lowerL (trimL s.toList))

/-- The DateNormalizer rules exactly as the specification words them: the three
relative rules in priority order, the days-ago rule yielding current time minus
the first embedded integer, else the five absolute patterns in order, else
current time. Written from the specification text to compare with the code. -/
def dateNormalizerSpecBody (cs : List Char) : PyDateTime :=
  if listContainsSub ("today".toList) cs then PyDateTime.nowMinus 0
  else if listContainsSub ("yesterday".toList) cs then PyDateTime.nowMinus 1
  else if listContainsSub ("days ago".toList) cs || listContainsSub ("day ago".toList) cs then
    match firstInt cs with
    | some n => PyDateTime.nowMinus n
    | none => PyDateTime.nowMinus 0
  else
    match dateFormatsParse cs with
    | some d => PyDateTime.abs d
    | none => PyDateTime.nowMinus 0

def dateNormalizerSpec (s : String) : PyDateTime :=
  if s == "" then PyDateTime.nowMinus 0
  else dateNormalizerSpecBody (lowerL (trimL s.toList))

/-- Models Python `urllib.parse.urljoin` (standard library, external to the
repository) for the http/https URLs the scraper handles; dot-segment
normalisation is not modelled. -/
def splitScheme : List Char → Option (List Char × List Char)
  | [] => none
  | c :: rest =>
    if isPrefixB ("://".toList) (c :: rest) then some ([], (c :: rest).drop 3)
    else
      match splitScheme rest with
      | some (a, b) => some (c :: a, b)
      | none => none

def urljoin (base rel : String) : String :=
  if rel == "" then base
  else if listContainsSub ("://".toList) rel.toList then rel
  else
    match splitScheme base.toList with
    | none => rel
    | some (scheme, rest) =>
      let hostL := rest.takeWhile (fun c => c != '/')
      let pathL := rest.drop hostL.length
      if isPrefixB ("//".toList) rel.toList then String.mk scheme ++ ":" ++ rel
      else if isPrefixB ("/".toList) rel.toList then
        String.mk scheme ++ "://" ++ String.mk hostL ++ rel
      else
        let dir := (pathL.reverse.dropWhile (fun c => c != '/')).reverse
        let dir2 := if dir.isEmpty then ['/'] else dir
        String.mk scheme ++ "://" ++ String.mk hostL ++ String.mk dir2 ++ rel

/-- One `div.jobListItem` listing fragment, as seen through the CSS probes of
`extract_job_data`: each `List (Option String)` holds, in document order, the
`::text` of the elements matched by the corresponding selector union (`none`
when the element has no text node). -/
structure Fragment where
  hasTitleAnchor : Bool
  titleText : Option String
  href : Option String
  hasDescElem : Bool
  descText : Option String
  locationTexts : List (Option String)
  salaryTexts : List (Option String)
  typeTexts : List (Option String)
  companyTexts : List (Option String)
  dateTexts : List (Option String)
deriving DecidableEq, Repr

/-- The dict returned by `extract_job_data` (key `type` is called `jobType`). -/
structure Job where
  title : String
  company : String
  location : String
  salary : String
  jobType : String
  date : PyDateTime
  url : Option String
  posted_date_raw : String
deriving DecidableEq, Repr

/-- The common probe loop shape of `extract_job_data`:
`for elem in elems: text = elem.css('::text').get(); if text and cond(text):
var = text.strip(); break` with default sentinel `"N/A"`. -/
def pickSpan (cond : String → Bool) : List (Option String) → String
  | [] => "N/A"
  | none :: rest => pickSpan cond rest
  | some t :: rest =>
    if t != "" && cond t then String.mk (trimL t.toList) else pickSpan cond rest

/-- The keyword relevance filter inside `extract_job_data`
(src/jobserve_scraper.py:251-271); `kw == ""` models the falsy guard
`if self.keywords:` under which the whole filter is skipped. -/
def keywordFilterPasses (kw title : String) (f : Fragment) : Bool :=
  if kw == "" then true
  else
    let keyword_words := splitWs (lowerL kw.toList)
    let title_lower := lowerL title.toList
    if keyword_words.any (fun w => listContainsSub w title_lower) then true
    else
      let description : Option String := if f.hasDescElem then f.descText else some ""
      match description with
      | none => false
      | some d =>
        if d != "" then keyword_words.any (fun w => listContainsSub w (lowerL d.toList))
        else false

/-- Field probes, cleanup and record construction of `extract_job_data`
(src/jobserve_scraper.py:273-340), run once the title and keyword guards passed. -/
def buildRecord (pageUrl : String) (f : Fragment) (title : String) : Job :=
  let location := pickSpan
    (fun t => listContainsSub ("UK".toList) t.toList || listContainsSub (",".toList) t.toList)
    f.locationTexts
  let salary := pickSpan (fun t => listContainsSub ("£".toList) t.toList) f.salaryTexts
  let jobType := pickSpan
    (fun t => (["Permanent", "Contract", "Contract/Permanent", "Part Time"] : List String).contains
      (String.mk (trimL t.toList)))
    f.typeTexts
  let company := pickSpan
    (fun t => !(trimL t.toList).isEmpty && decide (2 < (trimL t.toList).length))
    f.companyTexts
  let date_text := pickSpan
    (fun t => listContainsSub ("/".toList) t.toList || listContainsSub ("2025".toList) t.toList)
    f.dateTexts
  let posted_date := parse_date date_text
  let title2 := String.mk (trimL title.toList)
  let location2 := if location != "N/A" then String.mk (trimL location.toList) else location
  let salary2 := if salary != "N/A" then String.mk (trimL salary.toList) else salary
  let company2 := if company != "N/A" then String.mk (trimL company.toList) else company
  let job_url : Option String :=
    match f.href with
    | none => none
    | some h => if h != "" then some (urljoin pageUrl h) else some h
  { title := title2, company := company2, location := location2, salary := salary2,
    jobType := jobType, date := posted_date, url := job_url, posted_date_raw := date_text }

/-- `JobServeSpider.extract_job_data` (src/jobserve_scraper.py:237-344). The
`try/except` wrapper is not modelled: every probe in the model is total. -/
def extract_job_data (kw pageUrl : String) (f : Fragment) : Option Job :=
  if f.hasTitleAnchor then
    match f.titleText with
    | none => none
    | some title =>
      if (trimL title.toList).isEmpty then none
      else if keywordFilterPasses kw title f then some (buildRecord pageUrl f title)
      else none
  else none

/-- The specification-side list of search terms: whitespace-split words of the
lower-cased keywords. -/
def keywordTerms (kw : String) : List (List Char) := splitWs (lowerL kw.toList)

/-- One result page: its response URL, the fragments matched by the primary
selector `div.jobListItem`, those matched by the fallback selector union, and the
`span.nav_Next a::attr(href)` value. -/
structure Page where
  pageUrl : String
  jobListItems : List Fragment
  fallbackItems : List Fragment
  nextHref : Option String
deriving DecidableEq, Repr

/-- Python truthiness of `self.limit` (an `int` or `None`). -/
def limitActive : Option Nat → Bool
  | none => false
  | some n => decide (n ≠ 0)

def limitVal : Option Nat → Nat
  | none => 0
  | some n => n

def extractableB (kw u : String) (f : Fragment) : Bool := (extract_job_data kw u f).isSome

/-- The recurring guard `if self.limit and len(self.jobs) >= self.limit`. -/
def limitReached (limit : Option Nat) (count : Nat) : Bool :=
  limitActive limit && decide (limitVal limit ≤ count)

/-- The per-fragment loop of `parse_search_results` (src/jobserve_scraper.py:204-219):
break once the limit is reached, else extract and append. -/
def processFragments (limit : Option Nat) (kw pageUrl : String) :
    List Job → List Fragment → List Job
  | jobs, [] => jobs
  | jobs, f :: fs =>
    if limitReached limit jobs.length then jobs
    else
      match extract_job_data kw pageUrl f with
      | some j => processFragments limit kw pageUrl (jobs ++ [j]) fs
      | none => processFragments limit kw pageUrl jobs fs

/-- `JobServeSpider.parse_search_results` (src/jobserve_scraper.py:175-235) over the
chain of result pages the site serves; the second component counts the next-page
requests issued via `response.follow`. -/
def parse_search_results (limit : Option Nat) (kw : String) :
    List Job → List Page → List Job × Nat
  | jobs, [] => (jobs, 0)
  | jobs, p :: rest =>
    if limitReached limit jobs.length then (jobs, 0)
    else
      let listings := if p.jobListItems.isEmpty then p.fallbackItems else p.jobListItems
      if listings.isEmpty then (jobs, 0)
      else
        let jobs1 := processFragments limit kw p.pageUrl jobs listings
        if !(limitActive limit) || decide (jobs1.length < limitVal limit) then
          match p.nextHref with
          | some h =>
            if h != "" then
              let r := parse_search_results limit kw jobs1 rest
              (r.1, r.2 + 1)
            else (jobs1, 0)
          | none => (jobs1, 0)
        else (jobs1, 0)

/-- `self.limit = int(limit) if limit else None` in `__init__`
(src/jobserve_scraper.py:34): `0` is falsy, so a zero limit is stored as `None`. -/
def initLimit : Option Nat → Option Nat
  | none => none
  | some n => if n ≠ 0 then some n else none

/-- Spider construction parameters after `__init__`. -/
structure Spider where
  keywords : String
  days : Nat
  miles : Nat
  location : String
  username : Option String
  password : Option String
  limit : Option Nat
deriving DecidableEq, Repr

/-- One `<input type="hidden">` as seen through `::attr(name)` / `::attr(value)`. -/
structure HiddenInput where
  name : Option String
  value : Option String
deriving DecidableEq, Repr

/-- Python dict assignment `fd[k] = v` on an insertion-ordered dict with unique
keys: replace the existing binding in place, else append. -/
def dictInsert : List (String × String) → String → String → List (String × String)
  | [], k, v => [(k, v)]
  | (a, b) :: rest, k, v =>
    if a == k then (a, v) :: rest else (a, b) :: dictInsert rest k v

def fdLookup : List (String × String) → String → Option String
  | [], _ => none
  | (a, b) :: rest, k => if a == k then some b else fdLookup rest k

/-- The hidden-field loop of `perform_search` (src/jobserve_scraper.py:130-134):
`if name and value: form_data[name] = value` (empty name or value is falsy and
skipped). -/
def collectHidden : List HiddenInput → List (String × String) → List (String × String)
  | [], fd => fd
  | inp :: rest, fd =>
    match inp.name, inp.value with
    | some n, some v =>
      if n != "" && v != "" then collectHidden rest (dictInsert fd n v)
      else collectHidden rest fd
    | _, _ => collectHidden rest fd

/-- The caller-controlled fields written by `form_data.update({...})` plus the two
synthetic image-button coordinates (src/jobserve_scraper.py:137-152), in write
order. -/
def searchOverlay (sp : Spider) : List (String × String) :=
  [("ctl00$txtKeyWords", sp.keywords),
   ("ctl00$txtLocations", sp.location),
   ("selAge", toString sp.days),
   ("selRad", toString sp.miles),
   ("selInd", "00"),
   ("selJType", "15"),
   ("ctl00$txtTitle", ""),
   ("selClientType", ""),
   ("selSal", "00"),
   ("ctl00$RunMainSearch.x", "1"),
   ("ctl00$RunMainSearch.y", "1")]

def overlayKeys : List String :=
  ["ctl00$txtKeyWords", "ctl00$txtLocations", "selAge", "selRad", "selInd",
   "selJType", "ctl00$txtTitle", "selClientType", "selSal",
   "ctl00$RunMainSearch.x", "ctl00$RunMainSearch.y"]

def applyOverlay : List (String × String) → List (String × String) → List (String × String)
  | [], fd => fd
  | kv :: rest, fd => applyOverlay rest (dictInsert fd kv.1 kv.2)

/-- The `form_data` dict submitted by `perform_search` when the main form is
found: start empty, collect hidden fields, then overlay the search parameters. -/
def searchFormData (sp : Spider) (hidden : List HiddenInput) : List (String × String) :=
  applyOverlay (searchOverlay sp) (collectHidden hidden [])

/-- A response URL, structured so that the path component can be spoken about. -/
structure Url where
  scheme : String
  host : String
  path : String
  query : String
deriving DecidableEq, Repr

/-- The full URL string `response.url`. -/
def Url.toUrlString (u : Url) : String :=
  u.scheme ++ "://" ++ u.host ++ u.path ++ (if u.query == "" then "" else "?" ++ u.query)

/-- A fetched document, as seen through the selectors the spider uses. -/
structure WebDoc where
  url : Url
  text : String
  hasLoginForm : Bool
  hasKeywordField : Bool
  hasLocationField : Bool
  hasMainForm : Bool
  hiddenInputs : List HiddenInput
deriving DecidableEq, Repr

/-- The login-failure heuristic of `after_login` (src/jobserve_scraper.py:99):
`"login" in response.url.lower() and "error" in response.text.lower()`. -/
def after_login_failed (doc : WebDoc) : Bool :=
  substrB (lowerS doc.url.toUrlString) "login" && substrB (lowerS doc.text) "error"

/-- Python truthiness of an optional string credential. -/
def pyTruthy : Option String → Bool
  | none => false
  | some s => s != ""

/-- Outcome of one crawl: emitted records, whether a search request was submitted,
and how many next-page requests were issued. -/
structure CrawlResult where
  jobs : List Job
  searchSubmitted : Bool
  nextPageRequests : Nat
deriving DecidableEq, Repr

/-- `JobServeSpider.perform_search` (src/jobserve_scraper.py:106-173): both the
form-POST branch and the degraded direct-URL GET branch submit one search request
whose response chain is handed to `parse_search_results`. -/
def perform_search (sp : Spider) (doc : WebDoc) (pages : List Page) : CrawlResult :=
  if doc.hasKeywordField && doc.hasLocationField && doc.hasMainForm then
    let r := parse_search_results sp.limit sp.keywords [] pages
    ⟨r.1, true, r.2⟩
  else
    let r := parse_search_results sp.limit sp.keywords [] pages
    ⟨r.1, true, r.2⟩

/-- `JobServeSpider.parse_login_page` plus `after_login`
(src/jobserve_scraper.py:45-104): attempt login when a login form is present and
both credentials are truthy; a failed login returns without issuing any further
request. -/
def parse_login_page (sp : Spider) (landing loginResp : WebDoc) (pages : List Page) :
    CrawlResult :=
  if landing.hasLoginForm && pyTruthy sp.username && pyTruthy sp.password then
    if after_login_failed loginResp then ⟨[], false, 0⟩
    else perform_search sp loginResp pages
  else perform_search sp landing pages

/- Concrete inputs used by witnesses and counterexamples. -/

def fragPlain : Fragment :=
  { hasTitleAnchor := true, titleText := some "Senior Python Engineer",
    href := some "job/123", hasDescElem := false, descText := none,
    locationTexts := [], salaryTexts := [], typeTexts := [], companyTexts := [],
    dateTexts := [] }

def fragNoAnchor : Fragment :=
  { hasTitleAnchor := false, titleText := some "Senior Python Engineer",
    href := some "job/123", hasDescElem := false, descText := none,
    locationTexts := [], salaryTexts := [], typeTexts := [], companyTexts := [],
    dateTexts := [] }

def fragEmptyHref : Fragment :=
  { hasTitleAnchor := true, titleText := some "Engineer", href := some "",
    hasDescElem := false, descText := none, locationTexts := [], salaryTexts := [],
    typeTexts := [], companyTexts := [], dateTexts := [] }

def baseUrlCex : String := "https://jobserve.com/gb/en/JobListing.aspx"

def jobEmptyHref : Job :=
  { title := "Engineer", company := "N/A", location := "N/A", salary := "N/A",
    jobType := "N/A", date := PyDateTime.nowMinus 0, url := some "",
    posted_date_raw := "N/A" }

def fragHrefW : Fragment :=
  { hasTitleAnchor := true, titleText := some "Engineer", href := some "job/9",
    hasDescElem := false, descText := none, locationTexts := [], salaryTexts := [],
    typeTexts := [], companyTexts := [], dateTexts := [] }

def jobHrefW : Job :=
  { title := "Engineer", company := "N/A", location := "N/A", salary := "N/A",
    jobType := "N/A", date := PyDateTime.nowMinus 0,
    url := some "https://jobserve.com/gb/en/job/9", posted_date_raw := "N/A" }

def pageCapW : Page :=
  { pageUrl := "https://jobserve.com/results", jobListItems := [fragPlain, fragPlain, fragPlain],
    fallbackItems := [], nextHref := some "/page2" }

def pageAllW : Page :=
  { pageUrl := "https://jobserve.com/results", jobListItems := [fragPlain, fragPlain],
    fallbackItems := [], nextHref := none }

def spPayloadW : Spider :=
  { keywords := "python", days := 7, miles := 10, location := "London",
    username := none, password := none, limit := none }

def hiddenCexList : List HiddenInput :=
  [⟨some "__EVENTTARGET", some ""⟩, ⟨some "selAge", some "99"⟩]

def hiddenWList : List HiddenInput :=
  [⟨some "__VIEWSTATE", some "abc123"⟩]

def docLoginCex : WebDoc :=
  { url := { scheme := "https", host := "jobserve.com", path := "/gb/en/Home.aspx",
             query := "ret=Login" },
    text := "Internal Server Error", hasLoginForm := false, hasKeywordField := false,
    hasLocationField := false, hasMainForm := false, hiddenInputs := [] }

def spLoginW : Spider :=
  { keywords := "python", days := 7, miles := 10, location := "London",
    username := some "user", password := some "pass", limit := none }

def docLandingW : WebDoc :=
  { url := { scheme := "https", host := "jobserve.com", path := "/gb/en/JobListing.aspx",
             query := "" },
    text := "welcome", hasLoginForm := true, hasKeywordField := true,
    hasLocationField := true, hasMainForm := true, hiddenInputs := [] }

def docLoginFailW : WebDoc :=
  { url := { scheme := "https", host := "jobserve.com", path := "/gb/en/Login.aspx",
             query := "" },
    text := "There was an Error signing you in", hasLoginForm := false,
    hasKeywordField := true, hasLocationField := true, hasMainForm := true,
    hiddenInputs := [] }

def fragDescW : Fragment :=
  { hasTitleAnchor := true, titleText := some "Backend Engineer",
    href := none, hasDescElem := true, descText := some "Experience with Java and Spring",
    locationTexts := [], salaryTexts := [], typeTexts := [], companyTexts := [],
    dateTexts := [] }

/- Helper lemmas. -/

theorem isPrefixB_iff (n : List Char) : ∀ h, isPrefixB n h = true ↔ ∃ q, h = n ++ q := by
  induction n with
  | nil => intro h; simp [isPrefixB]
  | cons a as ih =>
    intro h
    cases h with
    | nil =>
      simp [isPrefixB]
    | cons b bs =>
      simp only [isPrefixB, Bool.and_eq_true, beq_iff_eq, ih, List.cons_append,
        List.cons.injEq]
      constructor
      · rintro ⟨rfl, q, rfl⟩; exact ⟨q, rfl, rfl⟩
      · rintro ⟨q, rfl, rfl⟩; exact ⟨rfl, q, rfl⟩

theorem listContainsSub_iff (n : List Char) :
    ∀ h, listContainsSub n h = true ↔ substrP n h := by
  intro h
  induction h with
  | nil =>
    rw [listContainsSub, isPrefixB_iff]
    constructor
    · rintro ⟨q, hq⟩; exact ⟨[], q, by simpa using hq⟩
    · rintro ⟨p, q, hpq⟩
      have hp : p = [] := by
        cases p with
        | nil => rfl
        | cons x xs => simp at hpq
      subst hp
      exact ⟨q, by simpa using hpq⟩
  | cons c t ih =>
    rw [listContainsSub, Bool.or_eq_true, isPrefixB_iff, ih]
    constructor
    · rintro (⟨q, hq⟩ | ⟨p, q, rfl⟩)
      · exact ⟨[], q, by simpa using hq⟩
      · exact ⟨c :: p, q, rfl⟩
    · rintro ⟨p, q, hpq⟩
      cases p with
      | nil => left; exact ⟨q, by simpa using hpq⟩
      | cons x xs =>
        right
        rw [List.cons_append, List.cons_append, List.cons.injEq] at hpq
        exact ⟨xs, q, hpq.2⟩

theorem firstInt_none : ∀ cs : List Char, firstInt cs = none →
    ∀ c ∈ cs, c.isDigit = false := by
  intro cs
  induction cs with
  | nil => intro _ c hc; cases hc
  | cons a t ih =>
    intro h c hc
    rw [firstInt] at h
    by_cases ha : a.isDigit = true
    · rw [if_pos ha] at h; cases h
    · have ha2 : a.isDigit = false := by
        cases hval : a.isDigit
        · rfl
        · exact absurd hval ha
      rw [if_neg ha] at h
      rcases List.mem_cons.mp hc with rfl | hct
      · exact ha2
      · exact ih h c hct

theorem matchDay_eq_none {c : Char} (rest : List Char) (h : c.isDigit = false) :
    matchDay (c :: rest) = none := by
  have h3 : ¬ c = '3' := fun e => by subst e; exact absurd h (by decide)
  have h12 : ¬ (c = '1' ∨ c = '2') := by
    rintro (rfl | rfl) <;> exact absurd h (by decide)
  have h0 : ¬ c = '0' := fun e => by subst e; exact absurd h (by decide)
  have hd : ¬ c.isDigit = true := by rw [h]; exact Bool.false_ne_true
  simp [matchDay, h3, h12, h0, hd]

theorem matchYear_eq_none {c : Char} (rest : List Char) (h : c.isDigit = false) :
    matchYear (c :: rest) = none := by
  cases rest with
  | nil => rfl
  | cons b r2 =>
    cases r2 with
    | nil => rfl
    | cons d r3 =>
      cases r3 with
      | nil => rfl
      | cons e r4 => simp [matchYear, h]

theorem strptimeSlash_eq_none (cs : List Char) (h : ∀ c ∈ cs, c.isDigit = false) :
    strptimeSlash cs = none := by
  cases cs with
  | nil => rfl
  | cons c rest =>
    have hd := matchDay_eq_none rest (h c (List.mem_cons_self c rest))
    simp [strptimeSlash, hd]

theorem strptimeDash_eq_none (cs : List Char) (h : ∀ c ∈ cs, c.isDigit = false) :
    strptimeDash cs = none := by
  cases cs with
  | nil => rfl
  | cons c rest =>
    have hd := matchDay_eq_none rest (h c (List.mem_cons_self c rest))
    simp [strptimeDash, hd]

theorem strptimeYMD_eq_none (cs : List Char) (h : ∀ c ∈ cs, c.isDigit = false) :
    strptimeYMD cs = none := by
  cases cs with
  | nil => rfl
  | cons c rest =>
    have hy := matchYear_eq_none rest (h c (List.mem_cons_self c rest))
    simp [strptimeYMD, hy]

theorem strptimeDMonY_eq_none (cs : List Char) (h : ∀ c ∈ cs, c.isDigit = false) :
    strptimeDMonY cs = none := by
  cases cs with
  | nil => rfl
  | cons c rest =>
    have hd := matchDay_eq_none rest (h c (List.mem_cons_self c rest))
    simp [strptimeDMonY, hd]

theorem strptimeDMonthY_eq_none (cs : List Char) (h : ∀ c ∈ cs, c.isDigit = false) :
    strptimeDMonthY cs = none := by
  cases cs with
  | nil => rfl
  | cons c rest =>
    have hd := matchDay_eq_none rest (h c (List.mem_cons_self c rest))
    simp [strptimeDMonthY, hd]

theorem dateFormatsParse_eq_none (cs : List Char) (h : ∀ c ∈ cs, c.isDigit = false) :
    dateFormatsParse cs = none := by
  rw [dateFormatsParse, strptimeSlash_eq_none cs h, strptimeDash_eq_none cs h,
    strptimeYMD_eq_none cs h, strptimeDMonY_eq_none cs h, strptimeDMonthY_eq_none cs h]
  rfl

theorem fdLookup_dictInsert (fd : List (String × String)) (k v n : String) :
    fdLookup (dictInsert fd k v) n = if n == k then some v else fdLookup fd n := by
  induction fd with
  | nil =>
    by_cases h : n = k
    · subst h; simp [dictInsert, fdLookup]
    · simp [dictInsert, fdLookup, h, Ne.symm h]
  | cons ab rest ih =>
    obtain ⟨a, b⟩ := ab
    by_cases hak : a = k
    · subst hak
      by_cases hna : n = a
      · subst hna; simp [dictInsert, fdLookup]
      · simp [dictInsert, fdLookup, hna, Ne.symm hna]
    · by_cases han : a = n
      · subst han
        simp [dictInsert, fdLookup, hak, fun e : a = k => hak e]
      · simp [dictInsert, fdLookup, hak, han, ih]

theorem applyOverlay_lookup (n : String) :
    ∀ (kvs : List (String × String)) (fd : List (String × String)),
      (∀ kv ∈ kvs, kv.1 ≠ n) →
      fdLookup (applyOverlay kvs fd) n = fdLookup fd n := by
  intro kvs
  induction kvs with
  | nil => intro fd _; rfl
  | cons kv rest ih =>
    intro fd h
    rw [applyOverlay, ih _ (fun x hx => h x (List.mem_cons_of_mem _ hx)),
      fdLookup_dictInsert,
      if_neg (by
        have hkv := h kv (List.mem_cons_self kv rest)
        simp only [beq_iff_eq]
        exact fun e => hkv e.symm)]

theorem collectHidden_lookup (n : String) :
    ∀ (inputs : List HiddenInput) (fd : List (String × String)),
      fdLookup (collectHidden inputs fd) n = fdLookup fd n ∨
      ∃ v, fdLookup (collectHidden inputs fd) n = some v ∧
        (⟨some n, some v⟩ : HiddenInput) ∈ inputs ∧ v ≠ "" := by
  intro inputs
  induction inputs with
  | nil => intro fd; left; rfl
  | cons inp rest ih =>
    intro fd
    obtain ⟨nm, vl⟩ := inp
    cases nm with
    | none =>
      rcases ih fd with h | ⟨v, hv, hmem, hne⟩
      · left; rw [collectHidden]; exact h
      · right; exact ⟨v, by rw [collectHidden]; exact hv, List.mem_cons_of_mem _ hmem, hne⟩
    | some n0 =>
      cases vl with
      | none =>
        rcases ih fd with h | ⟨v, hv, hmem, hne⟩
        · left; rw [collectHidden]; exact h
        · right; exact ⟨v, by rw [collectHidden]; exact hv, List.mem_cons_of_mem _ hmem, hne⟩
      | some v0 =>
        by_cases hval : (n0 != "" && v0 != "") = true
        · have hstep : collectHidden (⟨some n0, some v0⟩ :: rest) fd =
              collectHidden rest (dictInsert fd n0 v0) := by
            show (if (n0 != "" && v0 != "") = true then
                collectHidden rest (dictInsert fd n0 v0)
              else collectHidden rest fd) = _
            rw [if_pos hval]
          rcases ih (dictInsert fd n0 v0) with h | ⟨v, hv, hmem, hne⟩
          · rw [hstep, h, fdLookup_dictInsert]
            by_cases hn0 : n = n0
            · subst hn0
              right
              refine ⟨v0, by simp, List.mem_cons_self _ _, ?_⟩
              have := (Bool.and_eq_true _ _).mp hval
              simpa using this.2
            · left; rw [if_neg (by simpa using hn0)]
          · right
            exact ⟨v, by rw [hstep]; exact hv, List.mem_cons_of_mem _ hmem, hne⟩
        · have hstep : collectHidden (⟨some n0, some v0⟩ :: rest) fd =
              collectHidden rest fd := by
            show (if (n0 != "" && v0 != "") = true then
                collectHidden rest (dictInsert fd n0 v0)
              else collectHidden rest fd) = _
            rw [if_neg hval]
          rcases ih fd with h | ⟨v, hv, hmem, hne⟩
          · left; rw [hstep]; exact h
          · right; exact ⟨v, by rw [hstep]; exact hv, List.mem_cons_of_mem _ hmem, hne⟩

theorem collectHidden_preserves_isSome (n : String) :
    ∀ (inputs : List HiddenInput) (fd : List (String × String)),
      (fdLookup fd n).isSome = true →
      (fdLookup (collectHidden inputs fd) n).isSome = true := by
  intro inputs
  induction inputs with
  | nil => intro fd h; exact h
  | cons inp rest ih =>
    intro fd h
    obtain ⟨nm, vl⟩ := inp
    cases nm with
    | none => exact ih fd h
    | some n0 =>
      cases vl with
      | none => exact ih fd h
      | some v0 =>
        by_cases hval : (n0 != "" && v0 != "") = true
        · have hstep : collectHidden (⟨some n0, some v0⟩ :: rest) fd =
              collectHidden rest (dictInsert fd n0 v0) := by
            show (if (n0 != "" && v0 != "") = true then
                collectHidden rest (dictInsert fd n0 v0)
              else collectHidden rest fd) = _
            rw [if_pos hval]
          rw [hstep]
          apply ih
          rw [fdLookup_dictInsert]
          by_cases hnn : n = n0
          · rw [if_pos (by simpa using hnn)]; rfl
          · rw [if_neg (by simpa using hnn)]; exact h
        · have hstep : collectHidden (⟨some n0, some v0⟩ :: rest) fd =
              collectHidden rest fd := by
            show (if (n0 != "" && v0 != "") = true then
                collectHidden rest (dictInsert fd n0 v0)
              else collectHidden rest fd) = _
            rw [if_neg hval]
          rw [hstep]
          exact ih fd h

theorem collectHidden_mem_some (n v : String) (hnne : n ≠ "") (hvne : v ≠ "") :
    ∀ (inputs : List HiddenInput) (fd : List (String × String)),
      (⟨some n, some v⟩ : HiddenInput) ∈ inputs →
      (fdLookup (collectHidden inputs fd) n).isSome = true := by
  intro inputs
  induction inputs with
  | nil => intro fd h; cases h
  | cons inp rest ih =>
    intro fd hmem
    rcases List.mem_cons.mp hmem with heq | hmem2
    · subst heq
      have hval : (n != "" && v != "") = true := by simp [hnne, hvne]
      have hstep : collectHidden (⟨some n, some v⟩ :: rest) fd =
          collectHidden rest (dictInsert fd n v) := by
        show (if (n != "" && v != "") = true then
            collectHidden rest (dictInsert fd n v)
          else collectHidden rest fd) = _
        rw [if_pos hval]
      rw [hstep]
      apply collectHidden_preserves_isSome
      rw [fdLookup_dictInsert, if_pos (by simp)]
      rfl
    · obtain ⟨nm, vl⟩ := inp
      cases nm with
      | none => exact ih fd hmem2
      | some n0 =>
        cases vl with
        | none => exact ih fd hmem2
        | some v0 =>
          by_cases hval : (n0 != "" && v0 != "") = true
          · have hstep : collectHidden (⟨some n0, some v0⟩ :: rest) fd =
                collectHidden rest (dictInsert fd n0 v0) := by
              show (if (n0 != "" && v0 != "") = true then
                  collectHidden rest (dictInsert fd n0 v0)
                else collectHidden rest fd) = _
              rw [if_pos hval]
            rw [hstep]
            exact ih _ hmem2
          · have hstep : collectHidden (⟨some n0, some v0⟩ :: rest) fd =
                collectHidden rest fd := by
              show (if (n0 != "" && v0 != "") = true then
                  collectHidden rest (dictInsert fd n0 v0)
                else collectHidden rest fd) = _
              rw [if_neg hval]
            rw [hstep]
            exact ih fd hmem2

theorem limitReached_none (count : Nat) : limitReached none count = false := rfl

theorem limitReached_some_true {n count : Nat} (hn : 0 < n) (h : n ≤ count) :
    limitReached (some n) count = true := by
  simp [limitReached, limitActive, limitVal]
  omega

theorem limitReached_some_false {n count : Nat} (h : count < n) :
    limitReached (some n) count = false := by
  simp [limitReached, limitActive, limitVal]
  omega

theorem processFragments_length_limit (N : Nat) (kw u : String) (fs : List Fragment) :
    ∀ jobs : List Job, 0 < N → jobs.length ≤ N →
      (processFragments (some N) kw u jobs fs).length =
        min N (jobs.length + fs.countP (extractableB kw u)) := by
  induction fs with
  | nil =>
    intro jobs _ hle
    rw [processFragments]
    simp only [List.countP_nil, Nat.add_zero]
    omega
  | cons f fs ih =>
    intro jobs hN hle
    rw [processFragments]
    by_cases hb : N ≤ jobs.length
    · rw [if_pos (limitReached_some_true hN hb)]
      have hcle := List.countP_le_length (p := extractableB kw u) (l := f :: fs)
      omega
    · rw [if_neg (by rw [limitReached_some_false (by omega)]; exact Bool.false_ne_true)]
      cases hx : extract_job_data kw u f with
      | some j =>
        have hx2 : extractableB kw u f = true := by simp [extractableB, hx]
        rw [ih (jobs ++ [j]) hN (by simp; omega), List.countP_cons, hx2]
        simp
        omega
      | none =>
        have hx2 : extractableB kw u f = false := by simp [extractableB, hx]
        rw [ih jobs hN hle, List.countP_cons, hx2]
        simp

theorem processFragments_length_none (kw u : String) (fs : List Fragment) :
    ∀ jobs : List Job,
      (processFragments none kw u jobs fs).length =
        jobs.length + fs.countP (extractableB kw u) := by
  induction fs with
  | nil => intro jobs; rw [processFragments]; simp
  | cons f fs ih =>
    intro jobs
    rw [processFragments,
      if_neg (by rw [limitReached_none]; exact Bool.false_ne_true)]
    cases hx : extract_job_data kw u f with
    | some j =>
      have hx2 : extractableB kw u f = true := by simp [extractableB, hx]
      rw [ih (jobs ++ [j]), List.countP_cons, hx2]
      simp
      omega
    | none =>
      have hx2 : extractableB kw u f = false := by simp [extractableB, hx]
      rw [ih jobs, List.countP_cons, hx2]
      simp

theorem parse_date_body_eq (cs : List Char) :
    parse_date_body cs = dateNormalizerSpecBody cs := by
  rw [parse_date_body, dateNormalizerSpecBody]
  by_cases h1 : listContainsSub ("today".toList) cs = true
  · rw [if_pos h1, if_pos h1]
  · rw [if_neg h1, if_neg h1]
    by_cases h2 : listContainsSub ("yesterday".toList) cs = true
    · rw [if_pos h2, if_pos h2]
    · rw [if_neg h2, if_neg h2]
      by_cases h3 : (listContainsSub ("days ago".toList) cs ||
          listContainsSub ("day ago".toList) cs) = true
      · rw [if_pos h3, if_pos h3]
        cases hfi : firstInt cs with
        | some n => simp only [hfi]
        | none =>
          simp only [hfi, dateFormatsParse_eq_none cs (firstInt_none cs hfi)]
      · rw [if_neg h3, if_neg h3]

/-- Claim C3: the date normalizer applies, in priority order: "today" gives current
time; "yesterday" gives current time minus one day; "days ago"/"day ago" gives
current time minus the first embedded integer; else the five absolute patterns
D/M/Y, D-M-Y, Y-M-D, D Mon Y, D Month Y are tried in order and the first success
returned; empty input or no matching rule gives current time. Stated as: the code
`parse_date` coincides with the rules exactly as the specification words them. -/
theorem parse_date_spec (s : String) : parse_date s = dateNormalizerSpec s := by
  rw [parse_date, dateNormalizerSpec]
  by_cases h0 : (s == "") = true
  · rw [if_pos h0, if_pos h0]
  · rw [if_neg h0, if_neg h0, parse_date_body_eq]

/-- Claim C6 (amended): the login-failure detector returns true iff the full
response URL string case-insensitively contains "login" and the response body
case-insensitively contains "error" (the code inspects `response.url`, the whole
URL, not only its path). -/
theorem login_failure_detector_spec (doc : WebDoc) :
    after_login_failed doc = true ↔
      (substrP ("login".toList) (lowerL doc.url.toUrlString.toList) ∧
       substrP ("error".toList) (lowerL doc.text.toList)) := by
  rw [after_login_failed, Bool.and_eq_true,
    show substrB (lowerS doc.url.toUrlString) "login" =
      listContainsSub ("login".toList) (lowerL doc.url.toUrlString.toList) from rfl,
    show substrB (lowerS doc.text) "error" =
      listContainsSub ("error".toList) (lowerL doc.text.toList) from rfl,
    listContainsSub_iff, listContainsSub_iff]

/-- Claim C6 counterexample: on a response whose URL contains "login" only in the
query string (path `/gb/en/Home.aspx`, query `ret=Login`) and whose body contains
"error", the detector returns true although the URL path does not contain
"login"; so "true iff the path contains login and the body contains error" fails. -/
theorem login_failure_path_cex :
    ¬ (after_login_failed docLoginCex = true ↔
       (substrP ("login".toList) (lowerL docLoginCex.url.path.toList) ∧
        substrP ("error".toList) (lowerL docLoginCex.text.toList))) := by
  intro h
  have h1 : after_login_failed docLoginCex = true := by decide
  have h2 := (h.mp h1).1
  have h3 : listContainsSub ("login".toList) (lowerL docLoginCex.url.path.toList) = true :=
    (listContainsSub_iff _ _).mpr h2
  exact absurd h3 (by decide)

/-- Claim C7: when a login form was present, both credentials were supplied, and
the login-failure heuristic triggers on the login response, the crawl ends with
zero records, no search submission and no page request. -/
theorem login_failure_aborts_crawl (sp : Spider) (landing loginResp : WebDoc)
    (pages : List Page) (h1 : landing.hasLoginForm = true)
    (h2 : pyTruthy sp.username = true) (h3 : pyTruthy sp.password = true)
    (h4 : after_login_failed loginResp = true) :
    parse_login_page sp landing loginResp pages =
      { jobs := [], searchSubmitted := false, nextPageRequests := 0 } := by
  rw [parse_login_page, h1, h2, h3, h4]
  simp

theorem login_failure_aborts_crawl_witness :
    (docLandingW.hasLoginForm = true ∧ pyTruthy spLoginW.username = true ∧
     pyTruthy spLoginW.password = true ∧ after_login_failed docLoginFailW = true) ∧
    parse_login_page spLoginW docLandingW docLoginFailW [] =
      { jobs := [], searchSubmitted := false, nextPageRequests := 0 } :=
  ⟨⟨rfl, rfl, rfl, by decide⟩,
   login_failure_aborts_crawl spLoginW docLandingW docLoginFailW []
     rfl rfl rfl (by decide)⟩

/-- Claim C10: with an empty keywords string the relevance filter is bypassed:
extraction succeeds exactly when the title anchor is present and yields text that
is non-empty after stripping, regardless of title or description content. -/
theorem empty_keywords_bypass (u : String) (f : Fragment) :
    (extract_job_data "" u f).isSome = true ↔
      (f.hasTitleAnchor = true ∧
       ∃ t, f.titleText = some t ∧ (trimL t.toList).isEmpty = false) := by
  cases hA : f.hasTitleAnchor
  · simp [extract_job_data, hA]
  · cases htt : f.titleText with
    | none => simp [extract_job_data, hA, htt]
    | some t =>
      have hfp : keywordFilterPasses "" t f = true := rfl
      by_cases hemp : (trimL t.toList).isEmpty = true
      · have hnil : trimL t.toList = [] := by
          cases hl : trimL t.toList
          · rfl
          · rw [hl] at hemp; cases hemp
        have hnil2 : trimL t.data = [] := hnil
        simp [extract_job_data, hA, htt, hnil, hnil2]
      · have hne2 : trimL t.toList ≠ [] := by
          intro hl; rw [hl] at hemp; exact hemp rfl
        have hne3 : trimL t.data ≠ [] := hne2
        simp [extract_job_data, hA, htt, hne2, hne3, hfp]

/-- Claim C1: with resultLimit N set (N positive) and a result page carrying more
than N extractable fragments, the crawl emits exactly N records and issues no
next-page request, whatever the next-page link and the remaining page chain are. -/
theorem result_limit_cap (N : Nat) (kw : String) (p : Page) (rest : List Page)
    (hN : 0 < N) (hM : N < p.jobListItems.countP (extractableB kw p.pageUrl)) :
    (parse_search_results (some N) kw [] (p :: rest)).1.length = N ∧
    (parse_search_results (some N) kw [] (p :: rest)).2 = 0 := by
  have hne : p.jobListItems.isEmpty = false := by
    cases hpl : p.jobListItems with
    | nil => rw [hpl] at hM; simp at hM
    | cons a l => rfl
  have hjobs1 : (processFragments (some N) kw p.pageUrl [] p.jobListItems).length = N := by
    rw [processFragments_length_limit N kw p.pageUrl p.jobListItems [] hN (by simp)]
    simp
    omega
  have hguard : limitReached (some N) ([] : List Job).length = false :=
    limitReached_some_false (by simpa using hN)
  rw [parse_search_results]
  simp only [hguard, Bool.false_eq_true, if_false, hne]
  have hcond : (!limitActive (some N) ||
      decide ((processFragments (some N) kw p.pageUrl [] p.jobListItems).length <
        limitVal (some N))) = false := by
    rw [hjobs1]
    simp [limitActive, limitVal]
    omega
  rw [if_neg (by rw [hcond]; exact Bool.false_ne_true)]
  exact ⟨hjobs1, rfl⟩

theorem result_limit_cap_witness :
    (0 < 2 ∧ 2 < pageCapW.jobListItems.countP (extractableB "" pageCapW.pageUrl)) ∧
    ((parse_search_results (some 2) "" [] [pageCapW]).1.length = 2 ∧
     (parse_search_results (some 2) "" [] [pageCapW]).2 = 0) :=
  ⟨⟨by decide, by decide⟩, result_limit_cap 2 "" pageCapW [] (by decide) (by decide)⟩

/-- Claim C9: a result limit of 0 is stored as absent by `__init__`, the crawl
behaves exactly as with no limit supplied, and with no cap every extractable
fragment of a page is emitted (the count is bounded only by the listings). -/
theorem limit_zero_uncapped (kw : String) :
    initLimit (some 0) = none ∧
    (∀ (jobs : List Job) (pages : List Page),
      parse_search_results (initLimit (some 0)) kw jobs pages =
        parse_search_results none kw jobs pages) ∧
    (∀ p : Page, p.nextHref = none →
      (∀ f ∈ p.jobListItems, extractableB kw p.pageUrl f = true) →
      p.jobListItems ≠ [] →
      (parse_search_results (initLimit (some 0)) kw [] [p]).1.length =
        p.jobListItems.length) := by
  refine ⟨rfl, fun jobs pages => rfl, ?_⟩
  intro p hnext hall hne
  have hcount : p.jobListItems.countP (extractableB kw p.pageUrl) =
      p.jobListItems.length := List.countP_eq_length.mpr hall
  have hjobs1 : (processFragments none kw p.pageUrl [] p.jobListItems).length =
      p.jobListItems.length := by
    rw [processFragments_length_none]
    simp [hcount]
  have hnee : p.jobListItems.isEmpty = false := by
    cases hpl : p.jobListItems
    · exact absurd hpl hne
    · rfl
  show (parse_search_results none kw [] [p]).1.length = _
  rw [parse_search_results]
  simp only [limitReached_none, Bool.false_eq_true, if_false, hnee, limitActive,
    Bool.not_false, Bool.true_or, if_true, hnext]
  exact hjobs1

theorem limit_zero_uncapped_witness :
    (pageAllW.nextHref = none ∧
     (∀ f ∈ pageAllW.jobListItems, extractableB "" pageAllW.pageUrl f = true) ∧
     pageAllW.jobListItems ≠ []) ∧
    (parse_search_results (initLimit (some 0)) "" [] [pageAllW]).1.length =
      pageAllW.jobListItems.length :=
  ⟨⟨rfl, by decide, by decide⟩,
   (limit_zero_uncapped "").2.2 pageAllW rfl (by decide) (by decide)⟩

/-- Claim C5 counterexample: with hidden fields `__EVENTTARGET` (empty value) and
`selAge` (value "99"), the submitted payload neither contains `__EVENTTARGET` at
all (empty values are falsy and skipped) nor preserves the value of `selAge`
(the search-parameter overlay overwrites it with `str(self.days)` = "7"); so
"every hidden field is preserved verbatim" fails. -/
theorem search_payload_verbatim_cex :
    fdLookup (searchFormData spPayloadW hiddenCexList) "__EVENTTARGET" = none ∧
    fdLookup (searchFormData spPayloadW hiddenCexList) "selAge" = some "7" ∧
    ¬ fdLookup (searchFormData spPayloadW hiddenCexList) "__EVENTTARGET" = some "" ∧
    ¬ fdLookup (searchFormData spPayloadW hiddenCexList) "selAge" = some "99" := by
  decide

/-- Claim C5 (amended): the search payload contains every hidden field of the main
form that has a non-empty name and a non-empty value and whose name is not one of
the overlaid search-parameter keys: the payload maps that name to a value taken
verbatim from a (non-empty-valued) hidden field of that name. -/
theorem search_payload_hidden_fields (sp : Spider) (inputs : List HiddenInput)
    (n v : String) (hn : n ∉ overlayKeys) (hnne : n ≠ "") (hvne : v ≠ "")
    (hmem : (⟨some n, some v⟩ : HiddenInput) ∈ inputs) :
    ∃ v2, fdLookup (searchFormData sp inputs) n = some v2 ∧
      (⟨some n, some v2⟩ : HiddenInput) ∈ inputs ∧ v2 ≠ "" := by
  have hkeys : ∀ kv ∈ searchOverlay sp, kv.1 ≠ n := by
    intro kv hkv
    have hmapped : kv.1 ∈ (searchOverlay sp).map Prod.fst :=
      List.mem_map_of_mem _ hkv
    have hmemk : kv.1 ∈ overlayKeys := by
      have hkeq : (searchOverlay sp).map Prod.fst = overlayKeys := rfl
      rw [hkeq] at hmapped
      exact hmapped
    exact fun h => hn (h ▸ hmemk)
  have h1 : fdLookup (searchFormData sp inputs) n = fdLookup (collectHidden inputs []) n :=
    applyOverlay_lookup n (searchOverlay sp) (collectHidden inputs []) hkeys
  have hsome : (fdLookup (collectHidden inputs []) n).isSome = true :=
    collectHidden_mem_some n v hnne hvne inputs [] hmem
  rcases collectHidden_lookup n inputs [] with h | ⟨v2, hv2, hmem2, hne2⟩
  · rw [h] at hsome
    exact Bool.noConfusion hsome
  · exact ⟨v2, by rw [h1]; exact hv2, hmem2, hne2⟩

theorem search_payload_hidden_fields_witness :
    (("__VIEWSTATE" : String) ∉ overlayKeys ∧ ("__VIEWSTATE" : String) ≠ "" ∧
     ("abc123" : String) ≠ "" ∧
     (⟨some "__VIEWSTATE", some "abc123"⟩ : HiddenInput) ∈ hiddenWList) ∧
    (∃ v2, fdLookup (searchFormData spPayloadW hiddenWList) "__VIEWSTATE" = some v2 ∧
      (⟨some "__VIEWSTATE", some v2⟩ : HiddenInput) ∈ hiddenWList ∧ v2 ≠ "") :=
  ⟨⟨by decide, by decide, by decide, by decide⟩,
   search_payload_hidden_fields spPayloadW hiddenWList "__VIEWSTATE" "abc123"
     (by decide) (by decide) (by decide) (by decide)⟩

theorem extract_some_shape (kw u : String) (f : Fragment) (j : Job)
    (h : extract_job_data kw u f = some j) :
    ∃ t, f.hasTitleAnchor = true ∧ f.titleText = some t ∧ trimL t.toList ≠ [] ∧
      j = buildRecord u f t := by
  cases hA : f.hasTitleAnchor
  · rw [extract_job_data, hA] at h
    simp at h
  · rw [extract_job_data, hA] at h
    rw [if_pos rfl] at h
    cases htt : f.titleText with
    | none =>
      simp only [htt] at h
      exact Option.noConfusion h
    | some t =>
      simp only [htt] at h
      by_cases hemp : (trimL t.toList).isEmpty = true
      · rw [if_pos hemp] at h
        exact Option.noConfusion h
      · rw [if_neg hemp] at h
        by_cases hp : keywordFilterPasses kw t f = true
        · rw [if_pos hp] at h
          injection h with h2
          refine ⟨t, rfl, rfl, ?_, h2.symm⟩
          intro hl
          exact hemp (by rw [hl]; rfl)
        · rw [if_neg hp] at h
          exact Option.noConfusion h

/-- Claim C2: for non-empty keywords and a fragment whose title anchor yields text
that is non-empty after stripping, the relevance filter accepts the fragment iff
some whitespace-split term of the lower-cased keywords is a substring of the
lower-cased title, or no term matches the title and the description is present
and non-empty and some term is a substring of the lower-cased description. -/
theorem relevance_filter_spec (kw u : String) (f : Fragment) (t : String)
    (hk : kw ≠ "") (ha : f.hasTitleAnchor = true) (ht : f.titleText = some t)
    (hne : trimL t.toList ≠ []) :
    (extract_job_data kw u f).isSome = true ↔
      ((∃ w ∈ keywordTerms kw, substrP w (lowerL t.toList)) ∨
       ((∀ w ∈ keywordTerms kw, ¬ substrP w (lowerL t.toList)) ∧
        ∃ d, f.hasDescElem = true ∧ f.descText = some d ∧ d ≠ "" ∧
          ∃ w ∈ keywordTerms kw, substrP w (lowerL d.toList))) := by
  have hne2 : trimL t.data ≠ [] := hne
  have hiso : (extract_job_data kw u f).isSome = keywordFilterPasses kw t f := by
    by_cases hp : keywordFilterPasses kw t f = true
    · simp [extract_job_data, ha, ht, hne2, hp]
    · have hp2 : keywordFilterPasses kw t f = false := by
        cases hv : keywordFilterPasses kw t f
        · rfl
        · exact absurd hv hp
      simp [extract_job_data, ha, ht, hne2, hp2]
  rw [hiso]
  have hkb : (kw == "") = false := by simpa using hk
  rw [keywordFilterPasses, if_neg (by rw [hkb]; exact Bool.false_ne_true)]
  rw [show splitWs (lowerL kw.toList) = keywordTerms kw from rfl]
  by_cases hany : (keywordTerms kw).any (fun w => listContainsSub w (lowerL t.toList)) = true
  · rw [if_pos hany]
    constructor
    · intro _
      left
      obtain ⟨w, hw, hsub⟩ := List.any_eq_true.mp hany
      exact ⟨w, hw, (listContainsSub_iff w (lowerL t.toList)).mp hsub⟩
    · intro _; rfl
  · rw [if_neg hany]
    have hany2 : ∀ w ∈ keywordTerms kw, ¬ substrP w (lowerL t.toList) := by
      intro w hw hsub
      exact hany (List.any_eq_true.mpr ⟨w, hw, (listContainsSub_iff w _).mpr hsub⟩)
    have hanyP : ¬ ∃ w ∈ keywordTerms kw, substrP w (lowerL t.toList) := by
      rintro ⟨w, hw, hsub⟩
      exact hany2 w hw hsub
    cases hD : f.hasDescElem with
    | false =>
      constructor
      · intro hx
        simp at hx
      · rintro (h | ⟨-, d, hDe, -⟩)
        · exact absurd h hanyP
        · exact absurd hDe (by simp)
    | true =>
      cases hdt : f.descText with
      | none =>
        constructor
        · intro hx
          simp at hx
        · rintro (h | ⟨-, d, -, hdd, -⟩)
          · exact absurd h hanyP
          · exact Option.noConfusion hdd
      | some d =>
        by_cases hdE : d = ""
        · subst hdE
          constructor
          · intro hx
            simp at hx
          · rintro (h | ⟨-, d2, -, hdd, hdne, -⟩)
            · exact absurd h hanyP
            · injection hdd with hdd2
              exact absurd hdd2.symm hdne
        · constructor
          · intro hx
            have hx2 : (keywordTerms kw).any
                (fun w2 => listContainsSub w2 (lowerL d.toList)) = true := by
              simpa [hdE] using hx
            obtain ⟨w, hw, hsub⟩ := List.any_eq_true.mp hx2
            right
            exact ⟨hany2, d, rfl, rfl,
              hdE, w, hw, (listContainsSub_iff w (lowerL d.toList)).mp hsub⟩
          · rintro (h | ⟨-, d2, -, hdd, hdne, w, hw, hsub⟩)
            · exact absurd h hanyP
            · injection hdd with hdd2
              subst hdd2
              have hgoal : (keywordTerms kw).any
                  (fun w2 => listContainsSub w2 (lowerL d.toList)) = true :=
                List.any_eq_true.mpr ⟨w, hw, (listContainsSub_iff w _).mpr hsub⟩
              simpa [hdE] using hgoal

theorem relevance_filter_spec_witness :
    (("python developer" : String) ≠ "" ∧ fragPlain.hasTitleAnchor = true ∧
     fragPlain.titleText = some "Senior Python Engineer" ∧
     trimL ("Senior Python Engineer" : String).toList ≠ []) ∧
    ((extract_job_data "python developer" "https://jobserve.com/r" fragPlain).isSome = true ↔
      ((∃ w ∈ keywordTerms "python developer",
          substrP w (lowerL ("Senior Python Engineer" : String).toList)) ∨
       ((∀ w ∈ keywordTerms "python developer",
          ¬ substrP w (lowerL ("Senior Python Engineer" : String).toList)) ∧
        ∃ d, fragPlain.hasDescElem = true ∧ fragPlain.descText = some d ∧ d ≠ "" ∧
          ∃ w ∈ keywordTerms "python developer", substrP w (lowerL d.toList)))) :=
  ⟨⟨by decide, rfl, rfl, by decide⟩,
   relevance_filter_spec "python developer" "https://jobserve.com/r" fragPlain
     "Senior Python Engineer" (by decide) rfl rfl (by decide)⟩

/-- Claim C4: a fragment whose title anchor is absent, or yields no text, or only
text that strips to empty, produces no record; and every emitted record has a
non-empty title. -/
theorem title_required (kw u : String) (f : Fragment) :
    ((f.hasTitleAnchor = false ∨ f.titleText = none ∨
      (∀ t, f.titleText = some t → trimL t.toList = [])) →
      extract_job_data kw u f = none) ∧
    (∀ j, extract_job_data kw u f = some j → j.title ≠ "") := by
  constructor
  · intro h
    cases hA : f.hasTitleAnchor
    · simp [extract_job_data, hA]
    · cases htt : f.titleText with
      | none => simp [extract_job_data, hA, htt]
      | some t =>
        rcases h with h | h | h
        · rw [hA] at h; simp at h
        · rw [htt] at h; simp at h
        · have ht1 : trimL t.data = [] := h t htt
          simp [extract_job_data, hA, htt, ht1]
  · intro j hj
    obtain ⟨t, -, -, hne4, rfl⟩ := extract_some_shape kw u f j hj
    intro he
    have h2 : (buildRecord u f t).title = "" := he
    rw [show (buildRecord u f t).title = String.mk (trimL t.toList) from rfl] at h2
    exact hne4 (congrArg String.data h2)

theorem title_required_witness :
    (fragNoAnchor.hasTitleAnchor = false ∨ fragNoAnchor.titleText = none ∨
     (∀ t, fragNoAnchor.titleText = some t → trimL t.toList = [])) ∧
    extract_job_data "python" "https://jobserve.com/r" fragNoAnchor = none :=
  ⟨Or.inl rfl,
   (title_required "python" "https://jobserve.com/r" fragNoAnchor).1 (Or.inl rfl)⟩

/-- Claim C8 counterexample: a fragment whose title anchor carries `href=""`
produces a record whose url field is present (`some ""`) but not equal to the
resolution of the raw href against the page URL (`urljoin` of the empty href
yields the page URL itself): the code's `if job_url:` guard skips resolution for
the falsy empty href. -/
theorem job_url_resolution_cex :
    extract_job_data "" baseUrlCex fragEmptyHref = some jobEmptyHref ∧
    jobEmptyHref.url = some "" ∧ fragEmptyHref.href = some "" ∧
    some "" ≠ some (urljoin baseUrlCex "") := by
  decide

/-- Claim C8 (amended): every emitted record whose url field is present and
non-empty carries exactly the raw href of its fragment resolved against the URL
of the page the fragment was found on. -/
theorem job_url_resolved (kw u : String) (f : Fragment) (j : Job)
    (h : extract_job_data kw u f = some j) (v : String) (hv : j.url = some v)
    (hne : v ≠ "") :
    ∃ h0, f.href = some h0 ∧ h0 ≠ "" ∧ v = urljoin u h0 := by
  obtain ⟨t, -, -, -, rfl⟩ := extract_some_shape kw u f j h
  have hurl : (buildRecord u f t).url =
      (match f.href with
       | none => none
       | some h0 => if h0 != "" then some (urljoin u h0) else some h0) := rfl
  rw [hurl] at hv
  cases hf : f.href with
  | none =>
    simp only [hf] at hv
    exact Option.noConfusion hv
  | some h0 =>
    simp only [hf] at hv
    by_cases h00 : (h0 != "") = true
    · rw [if_pos h00] at hv
      injection hv with hv2
      exact ⟨h0, rfl, by simpa using h00, hv2.symm⟩
    · rw [if_neg h00] at hv
      injection hv with hv2
      have h0e : h0 = "" := by simpa using h00
      rw [hv2] at h0e
      exact absurd h0e hne

theorem job_url_resolved_witness :
    (extract_job_data "" baseUrlCex fragHrefW = some jobHrefW ∧
     jobHrefW.url = some "https://jobserve.com/gb/en/job/9" ∧
     ("https://jobserve.com/gb/en/job/9" : String) ≠ "") ∧
    ∃ h0, fragHrefW.href = some h0 ∧ h0 ≠ "" ∧
      ("https://jobserve.com/gb/en/job/9" : String) = urljoin baseUrlCex h0 :=
  ⟨⟨by decide, rfl, by decide⟩,
   job_url_resolved "" baseUrlCex fragHrefW jobHrefW (by decide)
     "https://jobserve.com/gb/en/job/9" rfl (by decide)⟩

end Jobserve
